import Mathlib

/-!
Verification development for the `scp_rs` remote file browser
(`src/ssh_cli/src`: `ssh.rs`, `app.rs`, `model.rs`).

The Rust core is shallowly embedded: pure helpers become Lean functions,
worker threads become functions from the outcome of their blocking remote
calls (modelled as explicit `RustResult` values or oracles) to the list of
messages they push into the mpsc channel, and the egui reducer
(`SshApp::update`) becomes a state-transition function on `AppState`.
Machine integers are modelled as `Nat`/`Int`; the `u64 -> i64` cast in
`format_timestamp` is made explicit.  `Utc::now()` is an effectful input
and is threaded as an explicit `now` parameter.
-/

/-- Rust `Result<T, E>` (with the error type first, as `Result<A, E>`
is used with `E = String` everywhere in the embedded code). -/
inductive RustResult (ε α : Type) : Type where
  | Ok : α → RustResult ε α
  | Err : ε → RustResult ε α
deriving DecidableEq, Repr

/-- True exactly on `Ok` values, like Rust `Result::is_ok`. -/
def RustResult.isOk {ε α : Type} : RustResult ε α → Bool
  | RustResult.Ok _ => true
  | RustResult.Err _ => false

/-- `model.rs`: `FileEntry { perm, size, date, name }`.  `size: u64` is a
`Nat`; the strings are as in the source. -/
structure FileEntry where
  perm : String
  size : Nat
  date : String
  name : String
deriving DecidableEq, Repr

/-- `model.rs`: `SortColumn`. -/
inductive SortColumn : Type where
  | None | Permission | Size | Date | Name
deriving DecidableEq, Repr

/-- `model.rs`: `SortDirection`. -/
inductive SortDirection : Type where
  | Asc | Desc
deriving DecidableEq, Repr

/-- `model.rs`: `FileEncoding`. -/
inductive FileEncoding : Type where
  | Utf8 | ShiftJis
deriving DecidableEq, Repr

/-- `ssh2::FileStat` as used by `ssh.rs`: all fields optional, sizes and
times are `u64`, permissions a `u32` bit mask. -/
structure FileStat where
  size : Option Nat
  uid : Option Nat
  gid : Option Nat
  perm : Option Nat
  atime : Option Nat
  mtime : Option Nat
deriving DecidableEq, Repr

/-- `ssh2::FileStat::is_dir`: the file-type bits of `perm.unwrap_or(0)`
(mask `0o170000`) equal `S_IFDIR = 0o040000`. -/
def FileStat.is_dir (s : FileStat) : Bool :=
  s.perm.getD 0 &&& 0o170000 == 0o040000

/-- One raw entry of `Sftp::readdir`: the decoded `file_name()` of the
returned `PathBuf` (`none` when the name cannot be decoded as UTF-8) and
the remote stat record. -/
structure RawEntry where
  name : Option String
  stat : FileStat
deriving DecidableEq, Repr

/-- `app.rs`: the `AppMessage` channel protocol.  A successful
`ConnectionResult` carries the two `Arc<Mutex<_>>` handles (modelled as
opaque `Nat` identities) and the initial path; `FileContentResult`
carries the file name and raw bytes (`List Nat`). -/
inductive AppMessage : Type where
  | ConnectionResult : RustResult String (Nat × Nat × String) → AppMessage
  | ListStarted : String → AppMessage
  | ListBatch : List FileEntry → AppMessage
  | ListFinished : AppMessage
  | ListError : String → AppMessage
  | SearchStarted : String → AppMessage
  | DownloadResult : RustResult String String → AppMessage
  | FileContentResult : RustResult String (String × List Nat) → AppMessage
deriving DecidableEq, Repr

/-! ### Glob pattern matching (`ssh.rs::matches_pattern`)

The source escapes the pattern with `regex::escape`, rewrites the escaped
`\*` to `.*` and `\?` to `.`, anchors with `^...$` and runs the regex
engine.  For patterns made of literal characters, `*` and `?` (the only
pattern class the program's search box documents), the resulting regex is
a concatenation of atoms: a literal character, `.` or `.*`.  `reAccepts`
is the shallow embedding of that anchored regex semantics under the
regex crate's default flags, where `.` matches any character except
`'\n'`: `.*` matches an arbitrary newline-free prefix split, expressed
by enumerating the newline-bounded suffixes so the matcher is
structurally recursive on the atom list. -/

/-- One atom of the regex produced from the glob pattern. -/
inductive RAtom : Type where
  | lit : Char → RAtom
  | dot : RAtom
  | dotStar : RAtom
deriving DecidableEq, Repr

/-- The escape-and-replace pipeline of `matches_pattern`, restricted to
patterns of literal characters, `*` and `?`: each `*` becomes `.*`, each
`?` becomes `.`, every other character becomes a (regex-escaped, hence
literal) character atom. -/
def toAtoms (p : List Char) : List RAtom :=
  p.map fun c => if c = '*' then RAtom.dotStar else if c = '?' then RAtom.dot else RAtom.lit c

/-- All suffixes of a list obtainable by dropping a newline-free
prefix, longest first (the list itself is the head).  These are
exactly the splits the regex `.*` can make under the regex crate's
default flags, where `.` does not match `'\n'`. -/
def nlSuffixes : List Char → List (List Char)
  | [] => [[]]
  | x :: xs => (x :: xs) :: (if x = '\n' then [] else nlSuffixes xs)

/-- Anchored matching of an atom sequence against a character list:
the regex `^a₁a₂...aₙ$` under the regex crate's default flags (no `s`
flag), so `.` matches any character except `'\n'` and `.*` consumes an
arbitrary newline-free prefix — expressed as: some newline-bounded
suffix of the input matches the remaining atoms. -/
def reAccepts : List RAtom → List Char → Bool
  | [], s => s.isEmpty
  | RAtom.lit _ :: _, [] => false
  | RAtom.lit c :: as, x :: xs => (x == c) && reAccepts as xs
  | RAtom.dot :: _, [] => false
  | RAtom.dot :: as, x :: xs => (x != '\n') && reAccepts as xs
  | RAtom.dotStar :: as, s => (nlSuffixes s).any fun t => reAccepts as t

/-- `ssh.rs::matches_pattern(name, pattern)` for glob patterns of
literal characters, `*` and `?`. -/
def matches_pattern (name pattern : String) : Bool :=
  reAccepts (toAtoms pattern.toList) name.toList

/-- Specification-side glob matching, written from the spec text: the
pattern is anchored to the full name, `*` stands for zero or more
arbitrary characters, `?` for exactly one arbitrary character, any other
character only for itself. -/
inductive GlobMatches : List Char → List Char → Prop where
  | nil : GlobMatches [] []
  | lit (c : Char) (p s : List Char) : c ≠ '*' → c ≠ '?' →
      GlobMatches p s → GlobMatches (c :: p) (c :: s)
  | one (x : Char) (p s : List Char) :
      GlobMatches p s → GlobMatches ('?' :: p) (x :: s)
  | starEmpty (p s : List Char) :
      GlobMatches p s → GlobMatches ('*' :: p) s
  | starMore (x : Char) (p s : List Char) :
      GlobMatches ('*' :: p) s → GlobMatches ('*' :: p) (x :: s)

/-! ### Permission and timestamp rendering (`ssh.rs`) -/

/-- `ssh.rs::format_permissions`: `<type><user rwx><group rwx><other rwx>`. -/
def format_permissions (stat : FileStat) : String :=
  let perm := stat.perm.getD 0
  let file_type := if stat.is_dir then "d" else "-"
  let user :=
    (if perm &&& 0o400 != 0 then "r" else "-") ++
    (if perm &&& 0o200 != 0 then "w" else "-") ++
    (if perm &&& 0o100 != 0 then "x" else "-")
  let group :=
    (if perm &&& 0o040 != 0 then "r" else "-") ++
    (if perm &&& 0o020 != 0 then "w" else "-") ++
    (if perm &&& 0o010 != 0 then "x" else "-")
  let other :=
    (if perm &&& 0o004 != 0 then "r" else "-") ++
    (if perm &&& 0o002 != 0 then "w" else "-") ++
    (if perm &&& 0o001 != 0 then "x" else "-")
  file_type ++ user ++ group ++ other

/-- Days-since-epoch to (year, month, day) in the proleptic Gregorian
calendar, the civil-from-days algorithm used by chrono. -/
def civilFromDays (z : Int) : Int × Nat × Nat :=
  let z2 := z + 719468
  let era := z2.fdiv 146097
  let doe := (z2 - era * 146097).toNat
  let yoe := (doe - doe / 1460 + doe / 36524 - doe / 146096) / 365
  let y := (yoe : Int) + era * 400
  let doy := doe - (365 * yoe + yoe / 4 - yoe / 100)
  let mp := (5 * doy + 2) / 153
  let d := doy - (153 * mp + 2) / 5 + 1
  let m := if mp < 10 then mp + 3 else mp - 9
  (if m ≤ 2 then y + 1 else y, m, d)

/-- (year, month, day) to days since the Unix epoch (inverse of
`civilFromDays`), used to state chrono's representable range. -/
def daysFromCivil (y : Int) (m d : Nat) : Int :=
  let y2 := if m ≤ 2 then y - 1 else y
  let era := y2.fdiv 400
  let yoe := (y2 - era * 400).toNat
  let doy := (153 * (if 2 < m then m - 3 else m + 9) + 2) / 5 + d - 1
  let doe := yoe * 365 + yoe / 4 - yoe / 100 + doy
  era * 146097 + (doe : Int) - 719468

/-- Largest Unix second representable by `chrono::NaiveDateTime`
(`262143-12-31T23:59:59`); `Utc.timestamp_opt` yields `None` above it. -/
def chronoMaxTs : Int := daysFromCivil 262143 12 31 * 86400 + 86399

/-- Smallest Unix second representable by `chrono::NaiveDateTime`
(`-262144-01-01T00:00:00`). -/
def chronoMinTs : Int := daysFromCivil (-262144) 1 1 * 86400

/-- The `timestamp as i64` cast in `format_timestamp`: two's-complement
wrap of a `u64` into an `i64`. -/
def toI64 (t : Nat) : Int :=
  if t < 2 ^ 63 then (t : Int) else (t : Int) - 2 ^ 64

/-- The 12 abbreviated month names produced by chrono's `%b`. -/
def monthNames : List String :=
  ["Jan", "Feb", "Mar", "Apr", "May", "Jun",
   "Jul", "Aug", "Sep", "Oct", "Nov", "Dec"]

/-- `%b` for a month number in `1..=12`.  The `getD` default is never hit
for the month numbers `civilFromDays` produces; it makes the lookup
total. -/
def monthAbbr (m : Nat) : String := monthNames.getD (m - 1) "Jan"

/-- Zero-padded two-digit rendering (`%d`, `%H`, `%M`). -/
def pad2 (n : Nat) : String := if n < 10 then "0" ++ toString n else toString n

/-- chrono `dt.format("%b %d %H:%M")` for an in-range Unix second. -/
def renderTimestamp (ti : Int) : String :=
  let days := ti.fdiv 86400
  let sod := (ti.emod 86400).toNat
  let c := civilFromDays days
  monthAbbr c.2.1 ++ " " ++ pad2 c.2.2 ++ " " ++
    pad2 (sod / 3600) ++ ":" ++ pad2 (sod % 3600 / 60)

/-- `ssh.rs::format_timestamp`: `None` renders as `"Unknown"`; a present
timestamp is cast `as i64` and fed to `Utc.timestamp_opt(_, 0).single()`,
which is `Some` exactly on chrono's representable range — out of range
the code falls back to `Utc::now()`, modelled by the explicit `now`
argument. -/
def format_timestamp (mtime : Option Nat) (now : Int) : String :=
  match mtime with
  | none => "Unknown"
  | some t =>
      let ti := toI64 t
      renderTimestamp (if chronoMinTs ≤ ti ∧ ti ≤ chronoMaxTs then ti else now)

/-! ### Streaming directory listing (`ssh.rs::list_files_streaming`) -/

/-- The `FileEntry` built for one raw entry by the listing loop. -/
def mkListEntry (now : Int) (stat : FileStat) (name : String) : FileEntry :=
  { perm := format_permissions stat
    size := stat.size.getD 0
    date := format_timestamp stat.mtime now
    name := name }

/-- The batching loop body of `list_files_streaming`: walks the raw
entries, skips `"."` and `".."` (names default to `"?"` as in
`unwrap_or("?")`), accumulates a batch, and flushes a `ListBatch` each
time the batch reaches 200 entries.  Returns the flushed messages and
the final unflushed batch. -/
def listLoop (now : Int) : List RawEntry → List FileEntry → List AppMessage × List FileEntry
  | [], batch => ([], batch)
  | e :: rest, batch =>
      let name := e.name.getD "?"
      if name = "." ∨ name = ".." then listLoop now rest batch
      else
        let batch2 := batch ++ [mkListEntry now e.stat name]
        if 200 ≤ batch2.length then
          let r := listLoop now rest []
          (AppMessage.ListBatch batch2 :: r.1, r.2)
        else listLoop now rest batch2

/-- `ssh.rs::list_files_streaming`.  `rd` is the combined outcome of the
sftp mutex lock and `readdir` (both failure modes return `Err` before
any entry is processed).  Returns the messages sent on the channel, in
order, and the function's own `Result`. -/
def list_files_streaming (path : String) (rd : RustResult String (List RawEntry))
    (now : Int) : List AppMessage × RustResult String Unit :=
  match rd with
  | RustResult.Err e => ([AppMessage.ListStarted path], RustResult.Err e)
  | RustResult.Ok entries =>
      let r := listLoop now entries []
      ([AppMessage.ListStarted path] ++ r.1 ++
        (if r.2.isEmpty then [] else [AppMessage.ListBatch r.2]) ++
        [AppMessage.ListFinished],
       RustResult.Ok ())

/-- The unbatched enumeration: the raw entries in `readdir` order, with
`"."` and `".."` dropped, converted to display entries. -/
def processedEntries (now : Int) (entries : List RawEntry) : List FileEntry :=
  entries.filterMap fun e =>
    let name := e.name.getD "?"
    if name = "." ∨ name = ".." then none
    else some (mkListEntry now e.stat name)

/-- 200-chunking with an explicit open chunk: the open chunk is extended
element by element and emitted whenever it reaches 200 entries; a
nonempty final chunk is emitted at the end.  `chunkGo l []` is the chunk
sequence of Rust's `l.chunks(200)`. -/
def chunkGo {α : Type} : List α → List α → List (List α)
  | [], cur => if cur.isEmpty then [] else [cur]
  | x :: xs, cur =>
      let cur2 := cur ++ [x]
      if 200 ≤ cur2.length then cur2 :: chunkGo xs [] else chunkGo xs cur2

/-- Rust `l.chunks(200)`: successive chunks of 200 with a shorter final
chunk. -/
def chunks200 {α : Type} (l : List α) : List (List α) := chunkGo l []

/-! ### Recursive search (`ssh.rs::search_files_streaming`) -/

/-- The remote directory tree as seen through `Sftp::readdir`: each node
is the outcome of reading that directory — `Err` when the enumeration
fails (permission denied, ...), `Ok` with the raw entries otherwise.
Each entry carries its decoded `file_name()` (`none` when undecodable,
`unwrap_or("")` in the search), its stat record, and the subtree behind
its path (only consulted when `stat.is_dir`). -/
inductive FsTree : Type where
  | mk : RustResult String (List (Option String × FileStat × FsTree)) → FsTree

/-- The `FileEntry` pushed for one matching search hit. -/
def mkSearchEntry (now : Int) (stat : FileStat) (name : String) : FileEntry :=
  { perm := format_permissions stat
    size := stat.size.getD 0
    date := format_timestamp stat.mtime now
    name := name }

mutual

/-- One descent of `ssh.rs::search_recursive` into a directory entry:
the body of the inner recursive call.  A failed `readdir` (`Err` node)
is swallowed (`let _ = search_recursive(...)`), leaving the accumulated
results as they are; a successful one processes that directory's
entries. -/
def search_dir (now : Int) (pattern : String) (recursive : Bool)
    (t : FsTree) (results : List FileEntry) : List FileEntry :=
  match t with
  | FsTree.mk (RustResult.Err _) => results
  | FsTree.mk (RustResult.Ok centries) => search_go now pattern recursive centries results
termination_by sizeOf t

/-- The entry loop of `ssh.rs::search_recursive` on an already
successfully enumerated directory: skip `"."` and `".."`, append
entries whose name matches the pattern (`unwrap_or("")` on the name),
and when `recursive` is set descend into directory entries before
continuing with the remaining siblings. -/
def search_go (now : Int) (pattern : String) (recursive : Bool) :
    List (Option String × FileStat × FsTree) → List FileEntry → List FileEntry
  | [], results => results
  | (nm, stat, child) :: rest, results =>
      let name := nm.getD ""
      if name = "." ∨ name = ".." then search_go now pattern recursive rest results
      else
        let results2 :=
          if matches_pattern name pattern then results ++ [mkSearchEntry now stat name]
          else results
        let results3 :=
          if recursive && stat.is_dir then search_dir now pattern recursive child results2
          else results2
        search_go now pattern recursive rest results3
termination_by l _ => sizeOf l

end

/-- `ssh.rs::search_files_streaming`: emits `SearchStarted(pattern)`,
then either fails with the base directory's enumeration error (its own
`Result` becomes `Err`, no further message), or walks the tree, chunks
the accumulated results into 200-entry `ListBatch` messages and ends
with `ListFinished`. -/
def search_files_streaming (base : FsTree) (pattern : String) (recursive : Bool)
    (now : Int) : List AppMessage × RustResult String Unit :=
  match base with
  | FsTree.mk (RustResult.Err e) =>
      ([AppMessage.SearchStarted pattern], RustResult.Err e)
  | FsTree.mk (RustResult.Ok entries) =>
      let results := search_go now pattern recursive entries []
      ([AppMessage.SearchStarted pattern] ++
        (chunks200 results).map AppMessage.ListBatch ++
        [AppMessage.ListFinished],
       RustResult.Ok ())

mutual

/-- Specification-side contribution of one subtree to the search result
set: nothing behind a failed enumeration, the reachable matches behind
a successful one. -/
def reach_dir (now : Int) (pattern : String) (recursive : Bool) (t : FsTree) :
    List FileEntry :=
  match t with
  | FsTree.mk (RustResult.Err _) => []
  | FsTree.mk (RustResult.Ok centries) => reach_go now pattern recursive centries
termination_by sizeOf t

/-- Specification-side description of the search result set: the
matching entries reachable through successfully enumerated directories,
in depth-first pre-order; a subtree behind a failed enumeration
contributes nothing, siblings are still visited. -/
def reach_go (now : Int) (pattern : String) (recursive : Bool) :
    List (Option String × FileStat × FsTree) → List FileEntry
  | [] => []
  | (nm, stat, child) :: rest =>
      let name := nm.getD ""
      if name = "." ∨ name = ".." then reach_go now pattern recursive rest
      else
        (if matches_pattern name pattern then [mkSearchEntry now stat name] else []) ++
        (if recursive && stat.is_dir then reach_dir now pattern recursive child else []) ++
        reach_go now pattern recursive rest
termination_by l => sizeOf l

end

mutual

/-- Does this subtree contain a directory that fails to enumerate? -/
def treeFailure : FsTree → Bool
  | FsTree.mk (RustResult.Err _) => true
  | FsTree.mk (RustResult.Ok centries) => anyFailure centries
termination_by t => sizeOf t

/-- Does some directory behind a forest of entries fail to enumerate? -/
def anyFailure : List (Option String × FileStat × FsTree) → Bool
  | [] => false
  | (_, _, child) :: rest => treeFailure child || anyFailure rest
termination_by l => sizeOf l

end

/-- The `ListBatch` payloads of a message sequence, concatenated in
delivery order. -/
def batchJoin (msgs : List AppMessage) : List FileEntry :=
  (msgs.filterMap fun m =>
    match m with
    | AppMessage.ListBatch b => some b
    | _ => none).flatten

/-! ### Content read, download, path join, workers (`ssh.rs`, `app.rs`) -/

/-- `ssh.rs::read_file_content`.  `file` is the combined outcome of the
sftp lock and `sftp.open` (each `Err` before any byte is read);
a successful open reads at most `max_bytes` bytes into the
`vec![0u8; max_bytes]` buffer in one `read` call, modelled as the
longest prefix that fits.  Returns the messages sent and the function's
own `Result`. -/
def read_file_content (file : RustResult String (List Nat)) (remote_path : String)
    (max_bytes : Nat) : List AppMessage × RustResult String Unit :=
  match file with
  | RustResult.Err e => ([], RustResult.Err e)
  | RustResult.Ok data =>
      ([AppMessage.FileContentResult (RustResult.Ok (remote_path, data.take max_bytes))],
       RustResult.Ok ())

/-- The remote-path join inside `app.rs::download_file`. -/
def download_remote_path (current_path file_name : String) : String :=
  if current_path.toList.getLast? = some '/' then current_path ++ file_name
  else if current_path.isEmpty then file_name
  else current_path ++ "/" ++ file_name

/-- The remote-path join inside `app.rs::view_file` (same three cases). -/
def view_remote_path (current_path file_name : String) : String :=
  if current_path.toList.getLast? = some '/' then current_path ++ file_name
  else if current_path.isEmpty then file_name
  else current_path ++ "/" ++ file_name

/-- Specification-side join, written from the spec text: current path
and name joined with a single `/`, three cases — trailing separator,
empty (root) path, no trailing separator. -/
def remote_path_spec (current_path file_name : String) : String :=
  if current_path.toList.getLast? = some '/' then current_path ++ file_name
  else if current_path.isEmpty then file_name
  else current_path ++ "/" ++ file_name

/-- The worker thread of `app.rs::download_file`: joins the remote path,
runs `download_worker` (modelled by the oracle `dl`, the outcome of the
session lock / `scp_recv` / local create / copy pipeline for a given
remote path) and sends exactly one `DownloadResult`. -/
def download_file_worker (current_path file_name : String)
    (dl : String → RustResult String Unit) : List AppMessage :=
  let display_name := file_name
  let remote_path := download_remote_path current_path file_name
  match dl remote_path with
  | RustResult.Ok _ =>
      [AppMessage.DownloadResult (RustResult.Ok ("Downloaded " ++ display_name))]
  | RustResult.Err e => [AppMessage.DownloadResult (RustResult.Err e)]

/-- The worker thread of `app.rs::view_file`: joins the remote path,
calls `read_file_content` with the 100000-byte cap (`fs` is the lock +
`open` + read outcome for a given remote path), and converts an `Err`
return into a terminal `FileContentResult(Err)`. -/
def view_file_worker (current_path file_name : String)
    (fs : String → RustResult String (List Nat)) : List AppMessage :=
  let remote_path := view_remote_path current_path file_name
  let r := read_file_content (fs remote_path) remote_path 100000
  r.1 ++
    (match r.2 with
     | RustResult.Ok _ => []
     | RustResult.Err e => [AppMessage.FileContentResult (RustResult.Err e)])

/-- The worker thread of `app.rs::list_directory`: runs
`list_files_streaming` and sends `ListError` with the displayed error
when it returns `Err`. -/
def list_directory_worker (path : String) (rd : RustResult String (List RawEntry))
    (now : Int) : List AppMessage :=
  let r := list_files_streaming path rd now
  r.1 ++
    (match r.2 with
     | RustResult.Ok _ => []
     | RustResult.Err e => [AppMessage.ListError e])

/-- The worker thread of `app.rs::search_files`: runs
`search_files_streaming` and sends `ListError` on `Err`. -/
def search_files_worker (base : FsTree) (pattern : String) (recursive : Bool)
    (now : Int) : List AppMessage :=
  let r := search_files_streaming base pattern recursive now
  r.1 ++
    (match r.2 with
     | RustResult.Ok _ => []
     | RustResult.Err e => [AppMessage.ListError e])

/-- The worker thread of `app.rs::connect_ssh`: on a successful
`connect_session` (outcome `cr`, carrying the new session and sftp
handles and the initial path) it sends `ConnectionResult(Ok(..))` and
then runs the initial listing, discarding that listing's `Result`
(`let _ = list_files_streaming(...)`); on `Err` it sends only
`ConnectionResult(Err(..))`. -/
def connect_worker (cr : RustResult String (Nat × Nat × String))
    (rd : RustResult String (List RawEntry)) (now : Int) : List AppMessage :=
  match cr with
  | RustResult.Ok (sess, sftp, path) =>
      AppMessage.ConnectionResult (RustResult.Ok (sess, sftp, path)) ::
        (list_files_streaming path rd now).1
  | RustResult.Err e => [AppMessage.ConnectionResult (RustResult.Err e)]

/-- Is a message a terminal `Err` outcome of some operation? -/
def isTerminalErr : AppMessage → Bool
  | AppMessage.ConnectionResult (RustResult.Err _) => true
  | AppMessage.ListError _ => true
  | AppMessage.DownloadResult (RustResult.Err _) => true
  | AppMessage.FileContentResult (RustResult.Err _) => true
  | _ => false

/-! ### Sorting and the UI reducer (`app.rs`) -/

/-- The file-viewer window state (`app.rs::FileViewerState`).  The
`decoded_content` field is the output of the external `encoding_rs`
decoder applied to `raw_content` and is not modelled (text decoding is
an external collaborator per the spec). -/
structure ViewerState where
  filename : String
  raw_content : List Nat
  encoding : FileEncoding
deriving DecidableEq, Repr

/-- The fields of `app.rs::SshApp` the message reducer and the sort
routine touch.  The two `Arc<Mutex<_>>` handles are opaque identities;
favorites, bookmarks and the text-input fields are presentation glue the
reducer never writes. -/
structure AppState where
  session : Option Nat
  sftp : Option Nat
  is_connected : Bool
  files : List FileEntry
  selected_file : Option FileEntry
  current_path : String
  status_msg : String
  is_loading : Bool
  sort_column : SortColumn
  sort_direction : SortDirection
  viewing_file : Option ViewerState
deriving DecidableEq, Repr

/-- Lexicographic comparison of character lists by code point; the
embedding of Rust `String::cmp` (bytewise lexicographic order on UTF-8,
which coincides with code-point order). -/
def lexCmp : List Char → List Char → Ordering
  | [], [] => Ordering.eq
  | [], _ :: _ => Ordering.lt
  | _ :: _, [] => Ordering.gt
  | a :: as, b :: bs =>
      match compare a.toNat b.toNat with
      | Ordering.eq => lexCmp as bs
      | o => o

/-- Rust `String::cmp`. -/
def strCmp (a b : String) : Ordering := lexCmp a.toList b.toList

/-- The per-column comparator inside `app.rs::sort_files`
(`a.perm.cmp(&b.perm)` etc.; `SortColumn::None` compares equal). -/
def entryCompare (c : SortColumn) (a b : FileEntry) : Ordering :=
  match c with
  | SortColumn.Permission => strCmp a.perm b.perm
  | SortColumn.Size => compare a.size b.size
  | SortColumn.Date => strCmp a.date b.date
  | SortColumn.Name => strCmp a.name b.name
  | SortColumn.None => Ordering.eq

/-- The full comparator passed to `sort_by`: the column comparison,
reversed (`ord.reverse()`) for `Desc`. -/
def sortCmp (c : SortColumn) (d : SortDirection) (a b : FileEntry) : Ordering :=
  match d with
  | SortDirection.Asc => entryCompare c a b
  | SortDirection.Desc => (entryCompare c a b).swap

/-- The `not greater` relation of the comparator: `a` may stay before
`b` in the stable sort. -/
def sortRel (c : SortColumn) (d : SortDirection) (a b : FileEntry) : Prop :=
  sortCmp c d a b ≠ Ordering.gt

instance sortRelDecidable (c : SortColumn) (d : SortDirection) :
    DecidableRel (sortRel c d) := fun a b => by
  unfold sortRel; infer_instance

/-- `app.rs::sort_files`: no-op when no column is active, otherwise the
stable sort of `files` by the comparator.  Rust `slice::sort_by` is a
stable sort; for the total preorder `sortRel` its result coincides with
insertion sort, the stable sort available here. -/
def sort_files (st : AppState) : AppState :=
  if st.sort_column = SortColumn.None then st
  else { st with
          files := st.files.insertionSort (sortRel st.sort_column st.sort_direction) }

/-- `app.rs::trigger_sort`: toggling the current column flips the
direction, a new column resets to ascending; both re-sort. -/
def trigger_sort (st : AppState) (column : SortColumn) : AppState :=
  let st2 :=
    if st.sort_column = column then
      { st with
          sort_direction :=
            match st.sort_direction with
            | SortDirection.Asc => SortDirection.Desc
            | SortDirection.Desc => SortDirection.Asc }
    else { st with sort_column := column, sort_direction := SortDirection.Asc }
  sort_files st2

/-- The message reducer inside `SshApp::update`: the `match msg` arm for
one received message.  (`update` drains the channel, folding this over
the pending messages in order.) -/
def applyMessage (st : AppState) (msg : AppMessage) : AppState :=
  match msg with
  | AppMessage.ConnectionResult (RustResult.Ok (sess, sftp, path)) =>
      { st with
          session := some sess
          sftp := some sftp
          current_path := path
          status_msg := "Connected."
          is_connected := true
          is_loading := false }
  | AppMessage.ConnectionResult (RustResult.Err e) =>
      { st with
          is_loading := false
          status_msg := "Error: " ++ e
          is_connected := false }
  | AppMessage.ListStarted path =>
      { st with
          is_loading := true
          files := []
          selected_file := none
          current_path := path
          status_msg := "Listing files..." }
  | AppMessage.SearchStarted query =>
      { st with
          is_loading := true
          files := []
          selected_file := none
          status_msg := "Searching for \x27" ++ query ++ "\x27..." }
  | AppMessage.ListBatch batch =>
      let st2 := { st with files := st.files ++ batch }
      if st2.sort_column ≠ SortColumn.None then sort_files st2 else st2
  | AppMessage.ListFinished =>
      let st2 := { st with
                    is_loading := false
                    status_msg := "Listed " ++ toString st.files.length ++ " files." }
      if st2.sort_column ≠ SortColumn.None then sort_files st2 else st2
  | AppMessage.ListError e =>
      { st with is_loading := false, status_msg := "List error: " ++ e }
  | AppMessage.DownloadResult (RustResult.Ok m) =>
      { st with is_loading := false, status_msg := m }
  | AppMessage.DownloadResult (RustResult.Err e) =>
      { st with is_loading := false, status_msg := "Download failed: " ++ e }
  | AppMessage.FileContentResult (RustResult.Ok (name, raw_content)) =>
      { st with
          is_loading := false
          viewing_file := some
            { filename := name
              raw_content := raw_content
              encoding := FileEncoding.Utf8 }
          status_msg := "File content loaded." }
  | AppMessage.FileContentResult (RustResult.Err e) =>
      { st with is_loading := false, status_msg := "Failed to read file: " ++ e }

/-- The state mutation `app.rs::connect_ssh` performs on the interactive
thread before spawning the worker (a no-op while already loading). -/
def connect_start (st : AppState) : AppState :=
  if st.is_loading then st
  else { st with is_loading := true, status_msg := "Connecting..." }

/-- The window title of `app.rs::show_file_viewer`:
`format!("Viewing: {}", state.filename)`. -/
def viewer_title (v : ViewerState) : String := "Viewing: " ++ v.filename

/-! ### Theorems -/

/-- Claim C6: a successful `read_file_content` with any remote path and
any cap delivers at most `max_bytes` bytes in the `FileContentResult Ok`
payload, even when the remote file is larger, and raises no error for
oversized files (the message is the `Ok` variant and the function
returns `Ok`). -/
theorem c6_read_file_content_cap (data : List Nat) (path : String) (max_bytes : Nat) :
    read_file_content (RustResult.Ok data) path max_bytes =
      ([AppMessage.FileContentResult (RustResult.Ok (path, data.take max_bytes))],
       RustResult.Ok ()) ∧
    (data.take max_bytes).length ≤ max_bytes := by
  refine ⟨rfl, ?_⟩
  simp [List.length_take]

/-- Claim C7: the remote path used by download and by view is the join
of the current browse path and the selected name with a single `/`,
covering exactly the three cases: trailing `/` on the current path,
empty current path, and the general case. -/
theorem c7_remote_path_join (cp fn : String) :
    download_remote_path cp fn = remote_path_spec cp fn ∧
    view_remote_path cp fn = remote_path_spec cp fn ∧
    (cp.toList.getLast? = some '/' → download_remote_path cp fn = cp ++ fn) ∧
    (cp = "" → download_remote_path cp fn = fn) ∧
    (cp.toList.getLast? ≠ some '/' → cp ≠ "" →
      download_remote_path cp fn = cp ++ "/" ++ fn) := by
  refine ⟨rfl, rfl, ?_, ?_, ?_⟩
  · intro h
    unfold download_remote_path
    rw [if_pos h]
  · intro h
    subst h
    unfold download_remote_path
    rw [if_neg (by decide), if_pos (by decide)]
  · intro h1 h2
    have hne : ¬(cp.isEmpty = true) := by simpa [String.isEmpty_iff] using h2
    unfold download_remote_path
    rw [if_neg h1, if_neg hne]

/-- Witness for C7 at a concrete input: a current path with no trailing
separator joins with an inserted `/`. -/
theorem c7_witness : download_remote_path "/home" "a.txt" = "/home" ++ "/" ++ "a.txt" := by
  have h := c7_remote_path_join "/home" "a.txt"
  exact h.2.2.2.2 (by decide) (by decide)

/-- Claim C10: a successful content read delivers, as the first element
of the `FileContentResult Ok` payload, the full remote path passed to
`read_file_content` (the joined current path and file name, not only the
base name); the reducer stores it as the viewer's `filename` and the
viewer window title displays it. -/
theorem c10_view_full_path (cp fn : String) (data : List Nat) (st : AppState) :
    view_file_worker cp fn (fun _ => RustResult.Ok data) =
      [AppMessage.FileContentResult
        (RustResult.Ok (view_remote_path cp fn, data.take 100000))] ∧
    (applyMessage st (AppMessage.FileContentResult
        (RustResult.Ok (view_remote_path cp fn, data.take 100000)))).viewing_file =
      some { filename := view_remote_path cp fn
             raw_content := data.take 100000
             encoding := FileEncoding.Utf8 } ∧
    (∀ v : ViewerState, viewer_title v = "Viewing: " ++ v.filename) ∧
    view_remote_path "/home" "a.txt" = "/home/a.txt" ∧
    "/home/a.txt" ≠ "a.txt" := by
  refine ⟨rfl, rfl, fun v => rfl, by decide, by decide⟩

/-- Claim C9 (frame property of a failed reconnect): starting a connect
attempt and then reducing `ConnectionResult(Err _)` leaves the stored
session and sftp handles and the displayed entries exactly as they were;
relative to the post-start state only the status message, the loading
flag and the connected flag change. -/
theorem c9_failed_reconnect_frame (st : AppState) (s f : Nat) (e : String)
    (hs : st.session = some s) (hf : st.sftp = some f) :
    (applyMessage (connect_start st)
        (AppMessage.ConnectionResult (RustResult.Err e))).session = st.session ∧
    (applyMessage (connect_start st)
        (AppMessage.ConnectionResult (RustResult.Err e))).sftp = st.sftp ∧
    (applyMessage (connect_start st)
        (AppMessage.ConnectionResult (RustResult.Err e))).files = st.files ∧
    applyMessage (connect_start st) (AppMessage.ConnectionResult (RustResult.Err e)) =
      { connect_start st with
          status_msg := "Error: " ++ e
          is_loading := false
          is_connected := false } := by
  have hred : ∀ st1 : AppState,
      applyMessage st1 (AppMessage.ConnectionResult (RustResult.Err e)) =
        { st1 with
            is_loading := false
            status_msg := "Error: " ++ e
            is_connected := false } := fun st1 => rfl
  rw [hred]
  refine ⟨?_, ?_, ?_, rfl⟩ <;> (unfold connect_start; split <;> rfl)

/-- Witness for C9 at a concrete connected state. -/
theorem c9_witness :
    (applyMessage
      (connect_start
        { session := some 1, sftp := some 2, is_connected := true, files := [],
          selected_file := none, current_path := "/", status_msg := "ok",
          is_loading := false, sort_column := SortColumn.None,
          sort_direction := SortDirection.Asc, viewing_file := none })
      (AppMessage.ConnectionResult (RustResult.Err "x"))).session = some 1 := by
  have h := c9_failed_reconnect_frame
    { session := some 1, sftp := some 2, is_connected := true, files := [],
      selected_file := none, current_path := "/", status_msg := "ok",
      is_loading := false, sort_column := SortColumn.None,
      sort_direction := SortDirection.Asc, viewing_file := none }
    1 2 "x" rfl rfl
  simpa using h.1

/-- Counterexample to claim C3 as stated: the listing started inside a
successful connect worker is a fallible remote operation started by the
application, yet when its `readdir` fails the connect worker discards
the error (`let _ = list_files_streaming(...)` in `connect_ssh`): the
channel receives only `ConnectionResult(Ok ..)` and `ListStarted`, and
no terminal `Err` message at all. -/
theorem c3_counterexample :
    connect_worker (RustResult.Ok (0, 0, "/")) (RustResult.Err "readdir failed") 0 =
      [AppMessage.ConnectionResult (RustResult.Ok (0, 0, "/")),
       AppMessage.ListStarted "/"] ∧
    (connect_worker (RustResult.Ok (0, 0, "/")) (RustResult.Err "readdir failed") 0).all
      (fun m => !isTerminalErr m) = true := by
  exact ⟨rfl, rfl⟩

/-- Claim C3 as amended: every fallible remote operation started by the
application — except the initial listing launched inside a successful
connect worker, whose error is discarded with only `ListStarted` sent —
reports its worker-call error as the `Err` variant of its terminal
message: `ConnectionResult` for connect, `ListError` for list and
search, `DownloadResult` for download, `FileContentResult` for content
reads. -/
theorem c3_amended_error_propagation :
    (∀ (e : String) (rd : RustResult String (List RawEntry)) (now : Int),
      connect_worker (RustResult.Err e) rd now =
        [AppMessage.ConnectionResult (RustResult.Err e)]) ∧
    (∀ (path e : String) (now : Int),
      list_directory_worker path (RustResult.Err e) now =
        [AppMessage.ListStarted path, AppMessage.ListError e]) ∧
    (∀ (pattern : String) (recursive : Bool) (now : Int) (e : String),
      search_files_worker (FsTree.mk (RustResult.Err e)) pattern recursive now =
        [AppMessage.SearchStarted pattern, AppMessage.ListError e]) ∧
    (∀ (cp fn e : String),
      download_file_worker cp fn (fun _ => RustResult.Err e) =
        [AppMessage.DownloadResult (RustResult.Err e)]) ∧
    (∀ (cp fn e : String),
      view_file_worker cp fn (fun _ => RustResult.Err e) =
        [AppMessage.FileContentResult (RustResult.Err e)]) := by
  exact ⟨fun e rd now => rfl, fun p e n => rfl, fun p r n e => rfl,
         fun a b e => rfl, fun a b e => rfl⟩

/-- `toAtoms` unfolding on a cons. -/
theorem toAtoms_cons (c : Char) (p : List Char) :
    toAtoms (c :: p) =
      (if c = '*' then RAtom.dotStar else if c = '?' then RAtom.dot else RAtom.lit c) ::
        toAtoms p := rfl

/-- A list is a member of its own newline-bounded suffix list. -/
theorem self_mem_nlSuffixes (s : List Char) : s ∈ nlSuffixes s := by
  cases s <;> simp [nlSuffixes]

/-- Every member of `nlSuffixes s` is a suffix of `s`. -/
theorem nlSuffixes_eq_append :
    ∀ (s t : List Char), t ∈ nlSuffixes s → ∃ u, s = u ++ t := by
  intro s
  induction s with
  | nil => intro t ht; simp [nlSuffixes] at ht; exact ⟨[], by simp [ht]⟩
  | cons x xs ih =>
    intro t ht
    simp only [nlSuffixes, List.mem_cons] at ht
    rcases ht with h | h
    · exact ⟨[], by simp [h]⟩
    · by_cases hx : x = '\n'
      · rw [if_pos hx] at h
        simp at h
      · rw [if_neg hx] at h
        obtain ⟨u, hu⟩ := ih t h
        exact ⟨x :: u, by simp [hu]⟩

/-- `*` absorbs an arbitrary prefix on the specification side. -/
theorem globMatches_star_lift :
    ∀ (u : List Char) {p t : List Char}, GlobMatches p t → GlobMatches ('*' :: p) (u ++ t) := by
  intro u
  induction u with
  | nil => intro p t h; exact GlobMatches.starEmpty p t h
  | cons x u ih => intro p t h; exact GlobMatches.starMore x _ _ (ih h)

/-- Soundness of the embedded regex matcher against the glob spec. -/
theorem reAccepts_imp_globMatches :
    ∀ (p s : List Char), reAccepts (toAtoms p) s = true → GlobMatches p s := by
  intro p
  induction p with
  | nil =>
    intro s h
    simp only [toAtoms, List.map_nil, reAccepts, List.isEmpty_iff] at h
    exact h ▸ GlobMatches.nil
  | cons c p ih =>
    intro s h
    by_cases hstar : c = '*'
    · subst hstar
      rw [toAtoms_cons, if_pos rfl] at h
      simp only [reAccepts, List.any_eq_true] at h
      obtain ⟨t, ht, hm⟩ := h
      obtain ⟨u, hu⟩ := nlSuffixes_eq_append s t ht
      exact hu ▸ globMatches_star_lift u (ih t hm)
    · by_cases hq : c = '?'
      · subst hq
        rw [toAtoms_cons, if_neg hstar, if_pos rfl] at h
        cases s with
        | nil => exact absurd h (by simp [reAccepts])
        | cons x xs =>
          simp only [reAccepts, Bool.and_eq_true] at h
          exact GlobMatches.one x p xs (ih xs h.2)
      · rw [toAtoms_cons, if_neg hstar, if_neg hq] at h
        cases s with
        | nil => exact absurd h (by simp [reAccepts])
        | cons x xs =>
          simp only [reAccepts, Bool.and_eq_true, beq_iff_eq] at h
          obtain ⟨hx, hm⟩ := h
          exact hx ▸ GlobMatches.lit c p xs hstar hq (ih xs hm)

/-- Completeness of the embedded regex matcher against the glob spec,
for names without a newline: the only characters the regex crate's `.`
refuses are then never consumed by `.` or `.*`. -/
theorem globMatches_imp_reAccepts :
    ∀ {p s : List Char}, GlobMatches p s → '\n' ∉ s →
      reAccepts (toAtoms p) s = true := by
  intro p s h
  induction h with
  | nil => intro _; rfl
  | lit c p s hc hq _ ih =>
    intro hnl
    simp only [List.mem_cons, not_or] at hnl
    rw [toAtoms_cons, if_neg hc, if_neg hq]
    simp [reAccepts, ih hnl.2]
  | one x p s _ ih =>
    intro hnl
    simp only [List.mem_cons, not_or] at hnl
    rw [toAtoms_cons, if_neg (by decide), if_pos rfl]
    have hx : (x != '\n') = true := by
      simp only [bne_iff_ne, Ne]
      exact fun hh => hnl.1 hh.symm
    simp [reAccepts, hx, ih hnl.2]
  | starEmpty p s _ ih =>
    intro hnl
    rw [toAtoms_cons, if_pos rfl]
    simp only [reAccepts, List.any_eq_true]
    exact ⟨s, self_mem_nlSuffixes s, ih hnl⟩
  | starMore x p s _ ih =>
    intro hnl
    simp only [List.mem_cons, not_or] at hnl
    have ih2 := ih hnl.2
    rw [toAtoms_cons, if_pos rfl] at ih2
    rw [toAtoms_cons, if_pos rfl]
    simp only [reAccepts, nlSuffixes, List.any_cons] at ih2 ⊢
    rw [if_neg (fun hh => hnl.1 hh.symm)]
    simp [ih2]

/-- Counterexample to claim C2 as stated: `regex::Regex` with default
flags (no `s`) lets `.` match any character except `'\n'`, so the `.*`
produced from `*` cannot cross a newline; `matches_pattern("a\nb","*")`
is false, while the claimed glob semantics — `*` standing for zero or
more arbitrary characters, anchored to the full name — matches that
name. -/
theorem c2_counterexample :
    matches_pattern "a\nb" "*" = false ∧
    GlobMatches "*".toList "a\nb".toList := by
  refine ⟨by decide, ?_⟩
  show GlobMatches ('*' :: []) ('a' :: '\n' :: 'b' :: [])
  exact GlobMatches.starMore 'a' [] _
    (GlobMatches.starMore '\n' [] _
      (GlobMatches.starMore 'b' [] []
        (GlobMatches.starEmpty [] [] GlobMatches.nil)))

/-- Claim C2 as amended: for every name containing no newline
character and every pattern of literal characters, `*` and `?`,
`matches_pattern` returns true exactly when the pattern, anchored to
the full name, matches with `*` as zero-or-more arbitrary characters
and `?` as exactly one (on a newline-containing name the regex-based
matcher refuses what glob semantics accepts, because the regex `.`
does not match `'\n'`); the four documented examples hold as given. -/
theorem c2_matches_pattern_glob :
    (∀ name pattern : String, '\n' ∉ name.toList →
      (matches_pattern name pattern = true ↔
        GlobMatches pattern.toList name.toList)) ∧
    matches_pattern "test.txt" "*.txt" = true ∧
    matches_pattern "file.rs" "file.?s" = true ∧
    matches_pattern "test.pdf" "*.txt" = false ∧
    matches_pattern "readme" "*" = true := by
  refine ⟨fun name pattern hnl =>
    ⟨fun h => reAccepts_imp_globMatches _ _ h,
     fun h => globMatches_imp_reAccepts h hnl⟩, ?_, ?_, ?_, ?_⟩ <;> decide

/-- Witness for C2 at a newline-free name and the first documented
example pattern. -/
theorem c2_witness :
    ('\n' ∉ "test.txt".toList) ∧ GlobMatches "*.txt".toList "test.txt".toList := by
  refine ⟨by decide, ?_⟩
  exact (c2_matches_pattern_glob.1 "test.txt" "*.txt" (by decide)).mp (by decide)

/-- Concatenating the chunks gives back the open chunk followed by the
remaining input. -/
theorem chunkGo_flatten {α : Type} :
    ∀ (l cur : List α), (chunkGo l cur).flatten = cur ++ l := by
  intro l
  induction l with
  | nil =>
    intro cur
    by_cases hc : cur.isEmpty
    · simp [chunkGo, hc, List.isEmpty_iff.mp hc]
    · simp [chunkGo, hc]
  | cons x xs ih =>
    intro cur
    by_cases hlen : 200 ≤ (cur ++ [x]).length
    · simp only [chunkGo]
      rw [if_pos hlen]
      simp [ih]
    · simp only [chunkGo]
      rw [if_neg hlen]
      simp [ih]

/-- Every chunk produced from an open chunk shorter than 200 has at most
200 elements. -/
theorem chunkGo_le200 {α : Type} :
    ∀ (l cur : List α), cur.length < 200 → ∀ b ∈ chunkGo l cur, b.length ≤ 200 := by
  intro l
  induction l with
  | nil =>
    intro cur hc b hb
    by_cases he : cur.isEmpty
    · simp [chunkGo, he] at hb
    · simp [chunkGo, he] at hb
      subst hb; omega
  | cons x xs ih =>
    intro cur hc b hb
    by_cases hlen : 200 ≤ (cur ++ [x]).length
    · simp only [chunkGo] at hb
      rw [if_pos hlen] at hb
      simp only [List.mem_cons] at hb
      rcases hb with hb | hb
      · subst hb; simp; omega
      · exact ih [] (by norm_num) b hb
    · simp only [chunkGo] at hb
      rw [if_neg hlen] at hb
      exact ih (cur ++ [x]) (by simp at hlen ⊢; omega) b hb

/-- The batching loop of `list_files_streaming`, with its final
nonempty-batch flush appended, sends exactly the 200-chunking of the
filtered enumeration that starts from the current open batch. -/
theorem listLoop_eq_chunkGo (now : Int) :
    ∀ (entries : List RawEntry) (batch : List FileEntry), batch.length < 200 →
      (listLoop now entries batch).1 ++
        (if (listLoop now entries batch).2.isEmpty then []
         else [AppMessage.ListBatch (listLoop now entries batch).2]) =
      (chunkGo (processedEntries now entries) batch).map AppMessage.ListBatch := by
  intro entries
  induction entries with
  | nil =>
    intro batch _
    by_cases hb : batch.isEmpty
    · simp [listLoop, processedEntries, chunkGo, hb]
    · simp [listLoop, processedEntries, chunkGo, hb]
  | cons e rest ih =>
    intro batch h
    by_cases hdot : (e.name.getD "?") = "." ∨ (e.name.getD "?") = ".."
    · have h1 : listLoop now (e :: rest) batch = listLoop now rest batch := by
        simp only [listLoop]
        rw [if_pos hdot]
      have h2 : processedEntries now (e :: rest) = processedEntries now rest := by
        simp only [processedEntries, List.filterMap_cons]
        rw [if_pos hdot]
      rw [h1, h2]
      exact ih batch h
    · have h2 : processedEntries now (e :: rest) =
          mkListEntry now e.stat (e.name.getD "?") :: processedEntries now rest := by
        simp only [processedEntries, List.filterMap_cons]
        rw [if_neg hdot]
      by_cases hlen : 200 ≤ (batch ++ [mkListEntry now e.stat (e.name.getD "?")]).length
      · have h1 : listLoop now (e :: rest) batch =
            (AppMessage.ListBatch (batch ++ [mkListEntry now e.stat (e.name.getD "?")]) ::
              (listLoop now rest []).1,
             (listLoop now rest []).2) := by
          simp only [listLoop]
          rw [if_neg hdot, if_pos hlen]
        have h3 : chunkGo (processedEntries now (e :: rest)) batch =
            (batch ++ [mkListEntry now e.stat (e.name.getD "?")]) ::
              chunkGo (processedEntries now rest) [] := by
          rw [h2]
          simp only [chunkGo]
          rw [if_pos hlen]
        rw [h1, h3]
        simp only [List.map_cons, List.cons_append]
        rw [ih [] (by norm_num)]
      · have h1 : listLoop now (e :: rest) batch =
            listLoop now rest (batch ++ [mkListEntry now e.stat (e.name.getD "?")]) := by
          simp only [listLoop]
          rw [if_neg hdot, if_neg hlen]
        have h3 : chunkGo (processedEntries now (e :: rest)) batch =
            chunkGo (processedEntries now rest)
              (batch ++ [mkListEntry now e.stat (e.name.getD "?")]) := by
          rw [h2]
          simp only [chunkGo]
          rw [if_neg hlen]
        rw [h1, h3]
        exact ih _ (by simp at hlen ⊢; omega)

/-- Entries surviving the listing filter are not named `"."` or `".."`. -/
theorem processedEntries_no_dots (now : Int) (entries : List RawEntry) :
    ∀ fe ∈ processedEntries now entries, fe.name ≠ "." ∧ fe.name ≠ ".." := by
  intro fe hfe
  induction entries with
  | nil => simp [processedEntries] at hfe
  | cons e rest ih =>
    simp only [processedEntries, List.filterMap_cons] at hfe
    by_cases hdot : (e.name.getD "?") = "." ∨ (e.name.getD "?") = ".."
    · rw [if_pos hdot] at hfe
      exact ih hfe
    · rw [if_neg hdot] at hfe
      simp only [List.mem_cons] at hfe
      rcases hfe with hfe | hfe
      · subst hfe
        simp only [mkListEntry]
        push_neg at hdot
        exact hdot
      · exact ih hfe

/-- Claim C1: a successful `list_files_streaming` sends exactly one
`ListStarted(path)`, then the 200-chunking of the single filtered
enumeration as `ListBatch` messages (each at most 200 entries, their
concatenation exactly the enumeration with `"."` and `".."` absent,
each entry once), then `ListFinished`. -/
theorem c1_list_files_streaming (path : String) (entries : List RawEntry) (now : Int) :
    list_files_streaming path (RustResult.Ok entries) now =
      (AppMessage.ListStarted path ::
        ((chunks200 (processedEntries now entries)).map AppMessage.ListBatch ++
          [AppMessage.ListFinished]),
       RustResult.Ok ()) ∧
    (∀ b ∈ chunks200 (processedEntries now entries), b.length ≤ 200) ∧
    (chunks200 (processedEntries now entries)).flatten = processedEntries now entries ∧
    (∀ fe ∈ processedEntries now entries, fe.name ≠ "." ∧ fe.name ≠ "..") := by
  refine ⟨?_, chunkGo_le200 _ _ (by norm_num), by simpa using chunkGo_flatten (processedEntries now entries) [],
    processedEntries_no_dots now entries⟩
  have hmain := listLoop_eq_chunkGo now entries [] (by norm_num)
  simp only [list_files_streaming, chunks200]
  rw [← hmain]
  simp


/-- Fuel-indexed form of `search_go_eq_reach`, by strong induction on
the size of the entry forest. -/
theorem search_go_reach_aux (now : Int) (pattern : String) (recursive : Bool) :
    ∀ (n : Nat) (entries : List (Option String × FileStat × FsTree))
      (acc : List FileEntry),
      sizeOf entries ≤ n →
      search_go now pattern recursive entries acc =
        acc ++ reach_go now pattern recursive entries := by
  intro n
  induction n with
  | zero =>
    intro entries acc h
    exfalso
    cases entries with
    | nil => simp at h
    | cons hd rest => simp at h
  | succ n ih =>
    intro entries acc h
    cases entries with
    | nil => simp [search_go, reach_go]
    | cons hd rest =>
      obtain ⟨nm, stat, child⟩ := hd
      simp only [List.cons.sizeOf_spec, Prod.mk.sizeOf_spec] at h
      have hrest : sizeOf rest ≤ n := by omega
      have hchildsz : sizeOf child ≤ n := by omega
      by_cases hdot : (nm.getD "") = "." ∨ (nm.getD "") = ".."
      · have h1 : search_go now pattern recursive ((nm, stat, child) :: rest) acc =
            search_go now pattern recursive rest acc := by
          simp only [search_go]; rw [if_pos hdot]
        have h2 : reach_go now pattern recursive ((nm, stat, child) :: rest) =
            reach_go now pattern recursive rest := by
          simp only [reach_go]; rw [if_pos hdot]
        rw [h1, h2]
        exact ih rest acc hrest
      · have h1 : search_go now pattern recursive ((nm, stat, child) :: rest) acc =
            search_go now pattern recursive rest
              (if recursive && stat.is_dir then
                  search_dir now pattern recursive child
                    (if matches_pattern (nm.getD "") pattern
                     then acc ++ [mkSearchEntry now stat (nm.getD "")] else acc)
                else
                  (if matches_pattern (nm.getD "") pattern
                   then acc ++ [mkSearchEntry now stat (nm.getD "")] else acc)) := by
          simp only [search_go]; rw [if_neg hdot]
        have h2 : reach_go now pattern recursive ((nm, stat, child) :: rest) =
            (if matches_pattern (nm.getD "") pattern
             then [mkSearchEntry now stat (nm.getD "")] else []) ++
            (if recursive && stat.is_dir then reach_dir now pattern recursive child
             else []) ++
            reach_go now pattern recursive rest := by
          simp only [reach_go]; rw [if_neg hdot]
        rw [h1, h2]
        have hdirlem : ∀ acc2 : List FileEntry,
            search_dir now pattern recursive child acc2 =
              acc2 ++ reach_dir now pattern recursive child := by
          intro acc2
          cases child with
          | mk rr =>
            cases rr with
            | Err e => simp [search_dir, reach_dir]
            | Ok centries =>
              simp only [search_dir, reach_dir]
              refine ih centries acc2 ?_
              simp only [FsTree.mk.sizeOf_spec, RustResult.Ok.sizeOf_spec] at hchildsz
              omega
        by_cases hdir : (recursive && stat.is_dir) = true
        · rw [if_pos hdir, if_pos hdir, hdirlem, ih rest _ hrest]
          by_cases hm : matches_pattern (nm.getD "") pattern = true
          · rw [if_pos hm, if_pos hm]; simp
          · rw [if_neg hm, if_neg hm]; simp
        · rw [if_neg hdir, if_neg hdir, ih rest _ hrest]
          by_cases hm : matches_pattern (nm.getD "") pattern = true
          · rw [if_pos hm, if_pos hm]; simp
          · rw [if_neg hm, if_neg hm]; simp

/-- The search accumulator collects exactly the reachable matches,
appended to whatever was accumulated before. -/
theorem search_go_eq_reach (now : Int) (pattern : String) (recursive : Bool)
    (entries : List (Option String × FileStat × FsTree)) (acc : List FileEntry) :
    search_go now pattern recursive entries acc =
      acc ++ reach_go now pattern recursive entries :=
  search_go_reach_aux now pattern recursive (sizeOf entries) entries acc (le_refl _)

/-- The batch payloads of a search stream are the chunk list. -/
theorem batchJoin_stream (p : String) (cs : List (List FileEntry)) :
    batchJoin (AppMessage.SearchStarted p ::
      (cs.map AppMessage.ListBatch ++ [AppMessage.ListFinished])) = cs.flatten := by
  simp [batchJoin, List.filterMap_append]
  congr 1
  induction cs with
  | nil => rfl
  | cons c cs ih => simp [ih]

/-- A search stream ends in its terminal message. -/
theorem getLast_stream (p : String) (ys : List AppMessage) :
    (AppMessage.SearchStarted p :: (ys ++ [AppMessage.ListFinished])).getLast? =
      some AppMessage.ListFinished := by
  rw [← List.cons_append]
  exact List.getLast?_concat _

/-- A successful search stream contains no `ListError`. -/
theorem noListError_stream (p : String) (cs : List (List FileEntry)) :
    ∀ m ∈ AppMessage.SearchStarted p ::
        (cs.map AppMessage.ListBatch ++ [AppMessage.ListFinished]),
      ∀ e, m ≠ AppMessage.ListError e := by
  intro m hm e
  simp only [List.mem_cons, List.mem_append, List.mem_map] at hm
  rcases hm with rfl | ⟨b, _, rfl⟩ | rfl | hm <;> simp at *

/-- Claim C5: a recursive search whose base directory enumerates
successfully — in particular over a tree in which some subdirectory's
enumeration fails (`anyFailure`) — still reports exactly the matching
entries reachable outside the failed subtrees (`reach_go`: failed
descents are skipped, siblings still visited), delivered as 200-entry
batches whose concatenation is that reachable-match list, and
terminates with `ListFinished`, never `ListError`. -/
theorem c5_search_partial_failure (pattern : String) (now : Int)
    (entries : List (Option String × FileStat × FsTree))
    (hfail : anyFailure entries = true) :
    (search_files_streaming (FsTree.mk (RustResult.Ok entries)) pattern true now).1 =
      AppMessage.SearchStarted pattern ::
        ((chunks200 (reach_go now pattern true entries)).map AppMessage.ListBatch ++
          [AppMessage.ListFinished]) ∧
    (search_files_streaming (FsTree.mk (RustResult.Ok entries)) pattern true now).2 =
      RustResult.Ok () ∧
    batchJoin
        (search_files_streaming (FsTree.mk (RustResult.Ok entries)) pattern true now).1 =
      reach_go now pattern true entries ∧
    ((search_files_streaming (FsTree.mk (RustResult.Ok entries)) pattern true now).1).getLast? =
      some AppMessage.ListFinished ∧
    (∀ m ∈ (search_files_streaming (FsTree.mk (RustResult.Ok entries)) pattern true now).1,
      ∀ e, m ≠ AppMessage.ListError e) := by
  have hres : search_go now pattern true entries [] = reach_go now pattern true entries := by
    simpa using search_go_eq_reach now pattern true entries []
  have hmsgs :
      (search_files_streaming (FsTree.mk (RustResult.Ok entries)) pattern true now).1 =
        AppMessage.SearchStarted pattern ::
          ((chunks200 (reach_go now pattern true entries)).map AppMessage.ListBatch ++
            [AppMessage.ListFinished]) := by
    simp [search_files_streaming, hres]
  refine ⟨hmsgs, rfl, ?_, ?_, ?_⟩
  · rw [hmsgs, batchJoin_stream]
    simpa using chunkGo_flatten (reach_go now pattern true entries) []
  · rw [hmsgs]
    exact getLast_stream pattern _
  · rw [hmsgs]
    exact noListError_stream pattern _

/-- Witness for C5 at a concrete tree: one subdirectory whose
enumeration is denied next to a matching plain file; the search still
ends with `ListFinished`. -/
theorem c5_witness :
    anyFailure
        [(some "sub",
          { size := none, uid := none, gid := none, perm := some 0o040755,
            atime := none, mtime := none },
          FsTree.mk (RustResult.Err "denied")),
         (some "a.txt",
          { size := some 5, uid := none, gid := none, perm := some 0o100644,
            atime := none, mtime := none },
          FsTree.mk (RustResult.Ok []))] = true ∧
    ((search_files_streaming
        (FsTree.mk (RustResult.Ok
          [(some "sub",
            { size := none, uid := none, gid := none, perm := some 0o040755,
              atime := none, mtime := none },
            FsTree.mk (RustResult.Err "denied")),
           (some "a.txt",
            { size := some 5, uid := none, gid := none, perm := some 0o100644,
              atime := none, mtime := none },
            FsTree.mk (RustResult.Ok []))]))
        "*.txt" true 0).1).getLast? = some AppMessage.ListFinished := by
  refine ⟨by simp [anyFailure, treeFailure], ?_⟩
  exact (c5_search_partial_failure "*.txt" 0 _
    (by simp [anyFailure, treeFailure])).2.2.2.1

/-- `Ordering.swap` turns `compare` on naturals around. -/
theorem natCompare_swap (a b : Nat) : (compare a b).swap = compare b a := by
  rcases Nat.lt_trichotomy a b with h | h | h
  · rw [Nat.compare_eq_lt.2 h, Nat.compare_eq_gt.2 h]; rfl
  · subst h; rw [Nat.compare_eq_eq.2 rfl]; rfl
  · rw [Nat.compare_eq_gt.2 h, Nat.compare_eq_lt.2 h]; rfl

/-- `Ordering.swap` turns lexicographic comparison around. -/
theorem lexCmp_swap : ∀ (a b : List Char), (lexCmp a b).swap = lexCmp b a := by
  intro a
  induction a with
  | nil => intro b; cases b <;> rfl
  | cons x xs ih =>
    intro b
    cases b with
    | nil => rfl
    | cons y ys =>
      have hyx : compare y.toNat x.toNat = (compare x.toNat y.toNat).swap :=
        (natCompare_swap x.toNat y.toNat).symm
      cases hcmp : compare x.toNat y.toNat with
      | lt => rw [hcmp] at hyx; simp [lexCmp, hcmp, hyx, Ordering.swap]
      | eq => rw [hcmp] at hyx; simp [lexCmp, hcmp, hyx, Ordering.swap]; exact ih ys
      | gt => rw [hcmp] at hyx; simp [lexCmp, hcmp, hyx, Ordering.swap]

/-- Transitivity of the `not greater` lexicographic relation. -/
theorem lexCmp_trans_ne_gt :
    ∀ (a b c : List Char), lexCmp a b ≠ Ordering.gt → lexCmp b c ≠ Ordering.gt →
      lexCmp a c ≠ Ordering.gt := by
  intro a
  induction a with
  | nil =>
    intro b c _ _
    cases c <;> simp [lexCmp]
  | cons x xs ih =>
    intro b c hab hbc
    cases b with
    | nil => simp [lexCmp] at hab
    | cons y ys =>
      cases c with
      | nil => simp [lexCmp] at hbc
      | cons z zs =>
        simp only [lexCmp] at hab hbc ⊢
        cases hxy : compare x.toNat y.toNat with
        | lt =>
          rw [hxy] at hab
          cases hyz : compare y.toNat z.toNat with
          | lt =>
            have h1 := Nat.compare_eq_lt.1 hxy
            have h2 := Nat.compare_eq_lt.1 hyz
            rw [Nat.compare_eq_lt.2 (by omega)]
            simp
          | eq =>
            have h1 := Nat.compare_eq_lt.1 hxy
            have h2 := Nat.compare_eq_eq.1 hyz
            rw [Nat.compare_eq_lt.2 (by omega)]
            simp
          | gt => rw [hyz] at hbc; simp at hbc
        | eq =>
          rw [hxy] at hab
          have h1 := Nat.compare_eq_eq.1 hxy
          cases hyz : compare y.toNat z.toNat with
          | lt =>
            have h2 := Nat.compare_eq_lt.1 hyz
            rw [Nat.compare_eq_lt.2 (by omega)]
            simp
          | eq =>
            have h2 := Nat.compare_eq_eq.1 hyz
            rw [hyz] at hbc
            rw [Nat.compare_eq_eq.2 (by omega)]
            exact ih ys zs hab hbc
          | gt => rw [hyz] at hbc; simp at hbc
        | gt => rw [hxy] at hab; simp at hab

/-- The column comparator is antisymmetric under `Ordering.swap`. -/
theorem entryCompare_swap (c : SortColumn) (a b : FileEntry) :
    (entryCompare c a b).swap = entryCompare c b a := by
  cases c with
  | None => rfl
  | Permission => exact lexCmp_swap _ _
  | Size => exact natCompare_swap _ _
  | Date => exact lexCmp_swap _ _
  | Name => exact lexCmp_swap _ _

/-- The column comparator's `not greater` relation is transitive. -/
theorem entryCompare_trans (c : SortColumn) (a b d : FileEntry) :
    entryCompare c a b ≠ Ordering.gt → entryCompare c b d ≠ Ordering.gt →
      entryCompare c a d ≠ Ordering.gt := by
  cases c with
  | None => intro h1 h2; simp [entryCompare]
  | Permission => exact lexCmp_trans_ne_gt _ _ _
  | Size =>
    intro h1 h2
    simp only [entryCompare] at h1 h2 ⊢
    rw [Ne, Nat.compare_eq_gt] at h1 h2 ⊢
    omega
  | Date => exact lexCmp_trans_ne_gt _ _ _
  | Name => exact lexCmp_trans_ne_gt _ _ _

/-- The comparator relation is total (for both directions). -/
theorem sortRel_total (c : SortColumn) (d : SortDirection) (a b : FileEntry) :
    sortRel c d a b ∨ sortRel c d b a := by
  have hba : entryCompare c b a = (entryCompare c a b).swap :=
    (entryCompare_swap c a b).symm
  cases d <;> cases h : entryCompare c a b <;>
    simp [sortRel, sortCmp, h, hba, Ordering.swap]

/-- Descending order is ascending order with the sides exchanged. -/
theorem sortRel_desc_iff (c : SortColumn) (x y : FileEntry) :
    sortRel c SortDirection.Desc x y ↔ entryCompare c y x ≠ Ordering.gt := by
  have hyx : entryCompare c y x = (entryCompare c x y).swap :=
    (entryCompare_swap c x y).symm
  cases h : entryCompare c x y <;> simp [sortRel, sortCmp, h, hyx, Ordering.swap]

/-- The comparator relation is transitive (for both directions). -/
theorem sortRel_trans (c : SortColumn) (d : SortDirection) (a b e : FileEntry) :
    sortRel c d a b → sortRel c d b e → sortRel c d a e := by
  cases d with
  | Asc => exact entryCompare_trans c a b e
  | Desc =>
    rw [sortRel_desc_iff, sortRel_desc_iff, sortRel_desc_iff]
    intro h1 h2
    exact entryCompare_trans c e b a h2 h1

/-- `sort_files` never changes the sort specification itself. -/
theorem sort_files_spec_frame (x : AppState) :
    (sort_files x).sort_column = x.sort_column ∧
    (sort_files x).sort_direction = x.sort_direction := by
  constructor <;> (unfold sort_files; split <;> rfl)

/-- Claim C8: selecting a new sort column sets it with Ascending
direction; selecting the current column flips the direction (Ascending
to Descending and back); and a batch arrival while a sort column is
active replaces the entry set by the stable sort of the full set (old
entries plus batch): the result is the stable insertion sort by the
active comparator — a permutation of the whole set, sorted, with
equal-keyed entries keeping their relative order. -/
theorem c8_sort_behaviour (st : AppState) (col : SortColumn) (batch : List FileEntry) :
    (col ≠ st.sort_column →
      (trigger_sort st col).sort_column = col ∧
      (trigger_sort st col).sort_direction = SortDirection.Asc) ∧
    (col = st.sort_column →
      (trigger_sort st col).sort_column = st.sort_column ∧
      (trigger_sort st col).sort_direction =
        (match st.sort_direction with
         | SortDirection.Asc => SortDirection.Desc
         | SortDirection.Desc => SortDirection.Asc)) ∧
    (st.sort_column ≠ SortColumn.None →
      (applyMessage st (AppMessage.ListBatch batch)).files =
        (st.files ++ batch).insertionSort
          (sortRel st.sort_column st.sort_direction) ∧
      List.Perm ((applyMessage st (AppMessage.ListBatch batch)).files)
        (st.files ++ batch) ∧
      List.Sorted (sortRel st.sort_column st.sort_direction)
        ((applyMessage st (AppMessage.ListBatch batch)).files) ∧
      (∀ x y, entryCompare st.sort_column x y = Ordering.eq →
        List.Sublist [x, y] (st.files ++ batch) →
        List.Sublist [x, y] ((applyMessage st (AppMessage.ListBatch batch)).files))) := by
  refine ⟨?_, ?_, ?_⟩
  · intro hne
    have hcond : ¬(st.sort_column = col) := fun h => hne h.symm
    have h2 : trigger_sort st col =
        sort_files { st with sort_column := col, sort_direction := SortDirection.Asc } := by
      unfold trigger_sort
      rw [if_neg hcond]
    rw [h2]
    have := sort_files_spec_frame
      { st with sort_column := col, sort_direction := SortDirection.Asc }
    exact ⟨this.1, this.2⟩
  · intro heq
    have hcond : st.sort_column = col := heq.symm
    have h2 : trigger_sort st col =
        sort_files { st with
          sort_direction :=
            match st.sort_direction with
            | SortDirection.Asc => SortDirection.Desc
            | SortDirection.Desc => SortDirection.Asc } := by
      unfold trigger_sort
      rw [if_pos hcond]
    rw [h2]
    have := sort_files_spec_frame
      { st with
          sort_direction :=
            match st.sort_direction with
            | SortDirection.Asc => SortDirection.Desc
            | SortDirection.Desc => SortDirection.Asc }
    exact ⟨this.1, this.2⟩
  · intro hcol
    have hfiles : (applyMessage st (AppMessage.ListBatch batch)).files =
        (st.files ++ batch).insertionSort
          (sortRel st.sort_column st.sort_direction) := by
      simp only [applyMessage]
      rw [if_pos hcol, sort_files]
      rw [if_neg hcol]
    haveI : IsTotal FileEntry (sortRel st.sort_column st.sort_direction) :=
      ⟨sortRel_total st.sort_column st.sort_direction⟩
    haveI : IsTrans FileEntry (sortRel st.sort_column st.sort_direction) :=
      ⟨sortRel_trans st.sort_column st.sort_direction⟩
    refine ⟨hfiles, ?_, ?_, ?_⟩
    · rw [hfiles]
      exact List.perm_insertionSort _ _
    · rw [hfiles]
      exact List.sorted_insertionSort _ _
    · intro x y hxy hsub
      rw [hfiles]
      have hr : sortRel st.sort_column st.sort_direction x y := by
        cases hd : st.sort_direction <;>
          simp [sortRel, sortCmp, hxy, Ordering.swap]
      exact List.pair_sublist_insertionSort hr hsub

/-- Witness for C8 at a concrete state with the Name column active. -/
theorem c8_witness :
    (trigger_sort
      { session := none, sftp := none, is_connected := true, files := [],
        selected_file := none, current_path := "/", status_msg := "",
        is_loading := false, sort_column := SortColumn.Name,
        sort_direction := SortDirection.Asc, viewing_file := none }
      SortColumn.Size).sort_direction = SortDirection.Asc ∧
    (trigger_sort
      { session := none, sftp := none, is_connected := true, files := [],
        selected_file := none, current_path := "/", status_msg := "",
        is_loading := false, sort_column := SortColumn.Name,
        sort_direction := SortDirection.Asc, viewing_file := none }
      SortColumn.Name).sort_direction = SortDirection.Desc ∧
    List.Sorted (sortRel SortColumn.Name SortDirection.Asc)
      ((applyMessage
        { session := none, sftp := none, is_connected := true, files := [],
          selected_file := none, current_path := "/", status_msg := "",
          is_loading := false, sort_column := SortColumn.Name,
          sort_direction := SortDirection.Asc, viewing_file := none }
        (AppMessage.ListBatch
          [{ perm := "-rw-r--r--", size := 5, date := "Jan 01 00:00",
             name := "a" }])).files) := by
  refine ⟨((c8_sort_behaviour
    { session := none, sftp := none, is_connected := true, files := [],
      selected_file := none, current_path := "/", status_msg := "",
      is_loading := false, sort_column := SortColumn.Name,
      sort_direction := SortDirection.Asc, viewing_file := none }
    SortColumn.Size []).1 (by decide)).2,
   ((c8_sort_behaviour
    { session := none, sftp := none, is_connected := true, files := [],
      selected_file := none, current_path := "/", status_msg := "",
      is_loading := false, sort_column := SortColumn.Name,
      sort_direction := SortDirection.Asc, viewing_file := none }
    SortColumn.Name []).2.1 rfl).2,
   ((c8_sort_behaviour
    { session := none, sftp := none, is_connected := true, files := [],
      selected_file := none, current_path := "/", status_msg := "",
      is_loading := false, sort_column := SortColumn.Name,
      sort_direction := SortDirection.Asc, viewing_file := none }
    SortColumn.Name
    [{ perm := "-rw-r--r--", size := 5, date := "Jan 01 00:00",
       name := "a" }]).2.2 (by decide)).2.2.1⟩

/-- Two-digit rendering really is two characters below 100. -/
theorem pad2_length : ∀ n : Nat, n < 100 → (pad2 n).length = 2 := by decide

/-- Every month abbreviation in the table has three letters. -/
theorem monthNames_length : ∀ s ∈ monthNames, s.length = 3 := by decide

/-- The abbreviation lookup always lands in the table. -/
theorem monthAbbr_mem (m : Nat) : monthAbbr m ∈ monthNames := by
  unfold monthAbbr
  rcases Nat.lt_or_ge (m - 1) monthNames.length with h | h
  · have hx : ∀ k, k < 12 → monthNames.getD k "Jan" ∈ monthNames := by decide
    exact hx (m - 1) (by simpa [monthNames] using h)
  · rw [List.getD_eq_default _ _ h]
    decide

/-- The day component of the civil-date algorithm lies in `1..=31`. -/
theorem civil_day_bounds (z : Int) :
    1 ≤ (civilFromDays z).2.2 ∧ (civilFromDays z).2.2 ≤ 31 := by
  simp only [civilFromDays]
  generalize (z + 719468 - (z + 719468).fdiv 146097 * 146097).toNat = doe
  constructor <;> omega

/-- Every rendered in-range timestamp starts with a three-letter month
abbreviation followed by a zero-padded two-digit day of month. -/
theorem renderTimestamp_shape (ti : Int) :
    ∃ mon day rest, mon ∈ monthNames ∧ mon.length = 3 ∧
      1 ≤ day ∧ day ≤ 31 ∧ (pad2 day).length = 2 ∧
      (day < 10 → pad2 day = "0" ++ toString day) ∧
      renderTimestamp ti = mon ++ " " ++ pad2 day ++ rest := by
  refine ⟨monthAbbr (civilFromDays (ti.fdiv 86400)).2.1,
          (civilFromDays (ti.fdiv 86400)).2.2,
          " " ++ pad2 ((ti.emod 86400).toNat / 3600) ++ ":" ++
            pad2 ((ti.emod 86400).toNat % 3600 / 60),
          monthAbbr_mem _,
          monthNames_length _ (monthAbbr_mem _),
          (civil_day_bounds _).1,
          (civil_day_bounds _).2,
          pad2_length _ (by have := (civil_day_bounds (ti.fdiv 86400)).2; omega),
          fun h => by simp [pad2, h],
          ?_⟩
  simp [renderTimestamp, String.append_assoc]

/-- Counterexample to claim C4 as stated: a present timestamp outside
chrono's representable range (`timestamp_opt` returns `None`) makes
`format_timestamp` fall back to `Utc::now()`, so the same timestamp
rendered at two different wall-clock instants yields two different
strings — the result is not determined by the timestamp alone. -/
theorem c4_counterexample :
    format_timestamp (some (2 ^ 63 - 1)) 0 ≠
      format_timestamp (some (2 ^ 63 - 1)) (32 * 86400) := by
  decide

/-- Claim C4 as amended: a missing modification time renders as exactly
`"Unknown"`; a present timestamp inside chrono's representable range
renders deterministically — independently of the `Utc::now()` fallback
input — as a three-letter month abbreviation followed by a zero-padded
day; timestamp `1704067200` renders as `"Jan 01 00:00"`, containing
both `"Jan"` and `"01"`. -/
theorem c4_format_timestamp (t : Nat) (now now2 : Int)
    (h1 : chronoMinTs ≤ toI64 t) (h2 : toI64 t ≤ chronoMaxTs) :
    format_timestamp none now = "Unknown" ∧
    format_timestamp (some t) now = format_timestamp (some t) now2 ∧
    (∃ mon day rest, mon ∈ monthNames ∧ mon.length = 3 ∧
      1 ≤ day ∧ day ≤ 31 ∧ (pad2 day).length = 2 ∧
      (day < 10 → pad2 day = "0" ++ toString day) ∧
      format_timestamp (some t) now = mon ++ " " ++ pad2 day ++ rest) ∧
    format_timestamp (some 1704067200) now = "Jan" ++ " " ++ "01" ++ " 00:00" := by
  have hin : format_timestamp (some t) now = renderTimestamp (toI64 t) := by
    simp only [format_timestamp]
    rw [if_pos ⟨h1, h2⟩]
  have hin2 : format_timestamp (some t) now2 = renderTimestamp (toI64 t) := by
    simp only [format_timestamp]
    rw [if_pos ⟨h1, h2⟩]
  refine ⟨rfl, hin.trans hin2.symm, ?_, ?_⟩
  · rw [hin]
    exact renderTimestamp_shape (toI64 t)
  · have hc : format_timestamp (some 1704067200) now =
        renderTimestamp (toI64 1704067200) := by
      simp only [format_timestamp]
      rw [if_pos (by constructor <;> decide)]
    rw [hc]
    decide

/-- Witness for C4 at the documented timestamp. -/
theorem c4_witness :
    (chronoMinTs ≤ toI64 1704067200 ∧ toI64 1704067200 ≤ chronoMaxTs) ∧
    format_timestamp (some 1704067200) 0 = format_timestamp (some 1704067200) 86400 := by
  exact ⟨⟨by decide, by decide⟩,
    (c4_format_timestamp 1704067200 0 86400 (by decide) (by decide)).2.1⟩
